import Mathlib

/-!
Verification development for the make-it-rain terminal rain effect
(source files: src/colors.rs, src/matrix.rs, src/main.rs).

The Rust code is shallowly embedded: `f32` values are modelled as `ℚ`,
`u16`/`usize`/`u8` as `ℕ` (with explicit wrapping or saturation where a
narrowing cast occurs in the source), `Instant` differences as a `ℚ`
number of seconds, and every call that can panic in Rust returns an
`Option` (`none` marks the panic).  Random draws made through `thread_rng`
are threaded in as explicit oracle arguments: `gen_range` receives the
raw draw and reduces it into the requested interval, `choose` receives an
index draw, `gen_bool` outcomes are `Bool` arguments, and `gen::<f32>()`
draws are `ℚ` arguments.  Claims quantify over all oracle values.
-/

namespace MakeItRain

/-! ## colors.rs -/

/-- Embedding of the subset of `crossterm::style::Color` used by the
program, plus the `Rgb` constructor produced by `fade_color_rgb`. -/
inductive Color where
  | Black | DarkRed | DarkGreen | DarkYellow | DarkBlue | DarkMagenta
  | DarkCyan | Grey | DarkGrey | Red | Green | Yellow | Blue | Magenta
  | Cyan | White | Reset
  | Rgb (r g b : ℕ)
  deriving DecidableEq, Repr

/-- Embedding of `MatrixColorScheme` from colors.rs. -/
inductive MatrixColorScheme where
  | Green
  | Custom (c : Color)
  deriving DecidableEq, Repr

/-- Embedding of `MatrixColorScheme::from_ansi_code` (colors.rs lines 12-39).
The argument is a `u8`, modelled as `ℕ`; every value above 15 takes the
wildcard arm, exactly as every `u8` above 15 does in the source. -/
def MatrixColorScheme.from_ansi_code (code : ℕ) : MatrixColorScheme :=
  let color : Color :=
    match code with
    | 0 => .Black
    | 1 => .DarkRed
    | 2 => .DarkGreen
    | 3 => .DarkYellow
    | 4 => .DarkBlue
    | 5 => .DarkMagenta
    | 6 => .DarkCyan
    | 7 => .Grey
    | 8 => .DarkGrey
    | 9 => .Red
    | 10 => .Green
    | 11 => .Yellow
    | 12 => .Blue
    | 13 => .Magenta
    | 14 => .Cyan
    | 15 => .White
    | _ => .Green
  if color = .Green ∨ color = .DarkGreen then .Green else .Custom color

/-- Embedding of `MatrixColorScheme::get_colors` (colors.rs lines 43-58):
the five-step gradient `(bright_head, mid, dim, dark, darkest)`. -/
def MatrixColorScheme.get_colors : MatrixColorScheme → Color × Color × Color × Color × Color
  | .Green => (.White, .Green, .DarkGreen, .DarkGreen, .Black)
  | .Custom base => (.White, base, base, base, .Black)

/-- Embedding of `MatrixColorScheme::get_base_rgb` (colors.rs lines 61-85). -/
def MatrixColorScheme.get_base_rgb : MatrixColorScheme → ℕ × ℕ × ℕ
  | .Green => (0, 255, 0)
  | .Custom color =>
    match color with
    | .Red => (255, 0, 0)
    | .DarkRed => (139, 0, 0)
    | .Blue => (0, 0, 255)
    | .DarkBlue => (0, 0, 139)
    | .Yellow => (255, 255, 0)
    | .DarkYellow => (184, 134, 11)
    | .Magenta => (255, 0, 255)
    | .DarkMagenta => (139, 0, 139)
    | .Cyan => (0, 255, 255)
    | .DarkCyan => (0, 139, 139)
    | .White => (255, 255, 255)
    | .Grey => (192, 192, 192)
    | .DarkGrey => (169, 169, 169)
    | .Black => (0, 0, 0)
    | _ => (0, 255, 0)

/-- One channel of `fade_color_rgb`: `(c as f32 * alpha).clamp(0.0, 255.0) as u8`.
The result of the clamp is in `[0, 255]`, and the `as u8` cast on a
non-negative float truncates toward zero, i.e. takes the floor. -/
def fadeChannel (c : ℕ) (alpha : ℚ) : ℕ :=
  (⌊min (255 : ℚ) (max 0 ((c : ℚ) * alpha))⌋).toNat

/-- Embedding of `fade_color_rgb` (colors.rs lines 89-95). -/
def fade_color_rgb (rgb : ℕ × ℕ × ℕ) (alpha : ℚ) : Color :=
  .Rgb (fadeChannel rgb.1 alpha) (fadeChannel rgb.2.1 alpha) (fadeChannel rgb.2.2 alpha)

/-! ## main.rs color-code validation -/

/-- Embedding of the color-code validation in `main` (main.rs lines 91-98):
codes above 15 print a warning and fall back to 10.  The `Bool` records
whether the fallback warning was emitted. -/
def validateColorCode (code : ℕ) : ℕ × Bool :=
  if code > 15 then (10, true) else (code, false)

/-- Full color resolution pipeline of `main` (main.rs lines 91-101):
validate the code, then build the scheme from it.  The `Bool` records
whether the out-of-range fallback was reported. -/
def resolveColor (code : ℕ) : MatrixColorScheme × Bool :=
  let v := validateColorCode code
  (MatrixColorScheme.from_ansi_code v.1, v.2)

/-! ## matrix.rs configuration store

The store is a set of process-wide atomics (matrix.rs lines 51-66 and
374-435).  Each atomic holds one scalar, so the store is modelled as a
record and each setter as a pure state transformer.  `Rat` stands in for
the `f32` payloads. -/

def TRAIL_MIN_LIMIT : ℕ := 4

def TRAIL_MAX_LIMIT : ℕ := 40

def SPEED_VARIATION : ℚ := 3 / 10

def CHAR_CHANGE_PROBABILITY : ℚ := 1 / 5

def SPEED_JITTER_AMOUNT : ℚ := 1 / 20

/-- The mutable configuration store: one field per atomic in matrix.rs. -/
structure Config where
  min_trail : ℕ
  max_trail : ℕ
  framerate : ℚ
  glitch_probability : ℚ
  flicker_probability : ℚ
  new_drop_probability : ℚ
  stuck_probability : ℚ
  deriving DecidableEq, Repr

/-- The initial values of the atomics (matrix.rs lines 51-64). -/
def defaultConfig : Config :=
  { min_trail := 8
    max_trail := 25
    framerate := 12
    glitch_probability := 3 / 1000
    flicker_probability := 1 / 100
    new_drop_probability := 1 / 20
    stuck_probability := 1 / 50 }

/-- Rust `x.clamp(lo, hi)` on `usize`: panics (here `none`) when
`lo > hi`, otherwise clamps into `[lo, hi]`. -/
def rustClampNat (x lo hi : ℕ) : Option ℕ :=
  if lo ≤ hi then some (min hi (max lo x)) else none

/-- Rust `x.clamp(lo, hi)` on an `f32` with constant bounds `lo ≤ hi`
(never panics on the non-NaN values `ℚ` models). -/
def clampQ (x lo hi : ℚ) : ℚ :=
  min hi (max lo x)

/-- Embedding of `set_framerate` (matrix.rs lines 374-377). -/
def set_framerate (cfg : Config) (fps : ℚ) : Config :=
  { cfg with framerate := clampQ fps 1 15 }

/-- Embedding of `set_glitch_probability` (matrix.rs lines 383-386). -/
def set_glitch_probability (cfg : Config) (prob : ℚ) : Config :=
  { cfg with glitch_probability := clampQ prob 0 1 }

/-- Embedding of `set_flicker_probability` (matrix.rs lines 392-395). -/
def set_flicker_probability (cfg : Config) (prob : ℚ) : Config :=
  { cfg with flicker_probability := clampQ prob 0 1 }

/-- Embedding of `set_stuck_probability` (matrix.rs lines 401-404). -/
def set_stuck_probability (cfg : Config) (prob : ℚ) : Config :=
  { cfg with stuck_probability := clampQ prob 0 1 }

/-- Embedding of `set_new_drop_probability` (matrix.rs lines 428-431). -/
def set_new_drop_probability (cfg : Config) (prob : ℚ) : Config :=
  { cfg with new_drop_probability := clampQ prob 0 1 }

/-- Embedding of `set_min_trail` (matrix.rs lines 410-413):
`len.clamp(TRAIL_MIN_LIMIT, TRAIL_MAX_LIMIT.min(get_max_trail()))`.
The `usize` clamp panics when its bounds cross, hence the `Option`. -/
def set_min_trail (cfg : Config) (len : ℕ) : Option Config :=
  (rustClampNat len TRAIL_MIN_LIMIT (min TRAIL_MAX_LIMIT cfg.max_trail)).map
    (fun v => { cfg with min_trail := v })

/-- Embedding of `set_max_trail` (matrix.rs lines 419-422):
`len.clamp(get_min_trail().max(TRAIL_MIN_LIMIT), TRAIL_MAX_LIMIT)`. -/
def set_max_trail (cfg : Config) (len : ℕ) : Option Config :=
  (rustClampNat len (max cfg.min_trail TRAIL_MIN_LIMIT) TRAIL_MAX_LIMIT).map
    (fun v => { cfg with max_trail := v })

/-- One call to a configuration-store setter. -/
inductive SetterCall where
  | minTrail (len : ℕ)
  | maxTrail (len : ℕ)
  | framerate (fps : ℚ)
  | glitchProb (p : ℚ)
  | flickerProb (p : ℚ)
  | stuckProb (p : ℚ)
  | newDropProb (p : ℚ)

/-- Dispatch one setter call against the store. -/
def applySetter (cfg : Config) : SetterCall → Option Config
  | .minTrail len => set_min_trail cfg len
  | .maxTrail len => set_max_trail cfg len
  | .framerate fps => some (set_framerate cfg fps)
  | .glitchProb p => some (set_glitch_probability cfg p)
  | .flickerProb p => some (set_flicker_probability cfg p)
  | .stuckProb p => some (set_stuck_probability cfg p)
  | .newDropProb p => some (set_new_drop_probability cfg p)

/-- Run a sequence of setter calls in order. -/
def applySetters (cfg : Config) : List SetterCall → Option Config
  | [] => some cfg
  | c :: rest => (applySetter cfg c).bind (fun cfg2 => applySetters cfg2 rest)

/-- The invariant the spec states for the store: ordered trail bounds and
probabilities inside `[0, 1]`. -/
def ConfigClaimInv (cfg : Config) : Prop :=
  cfg.min_trail ≤ cfg.max_trail ∧
  0 ≤ cfg.glitch_probability ∧ cfg.glitch_probability ≤ 1 ∧
  0 ≤ cfg.flicker_probability ∧ cfg.flicker_probability ≤ 1 ∧
  0 ≤ cfg.stuck_probability ∧ cfg.stuck_probability ≤ 1 ∧
  0 ≤ cfg.new_drop_probability ∧ cfg.new_drop_probability ≤ 1

/-- The inductive invariant actually maintained by the setters: the trail
bounds additionally stay inside `[TRAIL_MIN_LIMIT, TRAIL_MAX_LIMIT]`,
which is what keeps each `usize` clamp well-formed (non-crossing). -/
def ConfigInv (cfg : Config) : Prop :=
  TRAIL_MIN_LIMIT ≤ cfg.min_trail ∧ cfg.min_trail ≤ cfg.max_trail ∧
  cfg.max_trail ≤ TRAIL_MAX_LIMIT ∧
  0 ≤ cfg.glitch_probability ∧ cfg.glitch_probability ≤ 1 ∧
  0 ≤ cfg.flicker_probability ∧ cfg.flicker_probability ≤ 1 ∧
  0 ≤ cfg.stuck_probability ∧ cfg.stuck_probability ≤ 1 ∧
  0 ≤ cfg.new_drop_probability ∧ cfg.new_drop_probability ≤ 1

/-! ## Random-draw helpers

Each `thread_rng` call site is modelled by an explicit oracle argument.
The helpers below reduce a raw draw into the shape the `rand` API
produces, and return `none` exactly where the `rand` call would panic. -/

/-- Rust `rng.gen_range(lo..=hi)` on `usize`: panics (`none`) when the
inclusive range is empty (`lo > hi`), otherwise lands in `[lo, hi]`. -/
def genRangeIncl (lo hi draw : ℕ) : Option ℕ :=
  if lo ≤ hi then some (lo + draw % (hi - lo + 1)) else none

/-- Rust `rng.gen_range(lo..hi)` on `u16`: panics (`none`) when the
half-open range is empty (`lo ≥ hi`), otherwise lands in `[lo, hi)`. -/
def genRangeExcl (lo hi draw : ℕ) : Option ℕ :=
  if lo < hi then some (lo + draw % (hi - lo)) else none

/-- Rust `slice.choose(rng)`: `none` on an empty slice, otherwise some
element of the slice selected by the draw. -/
def chooseChar (l : List Char) (draw : ℕ) : Option Char :=
  l.get? (draw % l.length)

/-- Embedding of `GLITCH_CHARS` (matrix.rs line 48). -/
def GLITCH_CHARS : List Char := ['▒', '▓', '░', '█']

/-! ## matrix.rs drop state machine -/

/-- Embedding of `MatrixDrop` (matrix.rs lines 70-79).  The `last_update`
instant is not stored; the elapsed time `dt` it produces is instead an
argument of `update`.  Positions `y`, `prev_y` are the `f32` fields as
`ℚ`, `x` is the `u16` column. -/
structure MatrixDrop where
  x : ℕ
  y : ℚ
  prev_y : ℚ
  length : ℕ
  speed : ℚ
  chars : List Char
  charset : List Char
  deriving DecidableEq, Repr

/-- The random draws consumed by one `MatrixDrop::new` call: the
`gen_range` draw for the length, the `gen::<f32>()` draw for the speed,
and the per-index `choose` draws for the glyph buffer. -/
structure DropOracle where
  lenDraw : ℕ
  speedDraw : ℚ
  charDraw : ℕ → ℕ

/-- The glyph-buffer construction of `MatrixDrop::new` (matrix.rs lines
88-90): indices `i, i+1, ...` (`n` of them), each drawing one palette
glyph; `none` models the `choose(..).unwrap()` panic on an empty
charset. -/
def sampleChars (charset : List Char) (charDraw : ℕ → ℕ) :
    ℕ → ℕ → Option (List Char)
  | _, 0 => some []
  | i, n + 1 =>
    match chooseChar charset (charDraw i) with
    | none => none
    | some c =>
      match sampleChars charset charDraw (i + 1) n with
      | none => none
      | some cs => some (c :: cs)

/-- Embedding of `MatrixDrop::new` (matrix.rs lines 83-102).  The `_rows`
argument is unused in the source as well.  `none` models the two panics:
`gen_range` on an empty length range and `choose(..).unwrap()` on an
empty charset (the latter is only reached when the length is positive). -/
def MatrixDrop.new (x _rows : ℕ) (charset : List Char) (cfg : Config)
    (o : DropOracle) : Option MatrixDrop :=
  match genRangeIncl cfg.min_trail cfg.max_trail o.lenDraw with
  | none => none
  | some length =>
    let speed : ℚ := 1 + o.speedDraw * SPEED_VARIATION
    match sampleChars charset o.charDraw 0 length with
    | none => none
    | some chars =>
      some { x := x, y := -(length : ℚ), prev_y := -(length : ℚ),
             length := length, speed := speed, chars := chars,
             charset := charset }

/-- One glyph of the per-update resampling loop (matrix.rs lines 128-136):
with probability `CHAR_CHANGE_PROBABILITY` the glyph is resampled, and of
those resamples a `gen_bool(0.005)` hit takes a glitch glyph instead of a
palette glyph.  `none` models the `unwrap` panic on an empty charset. -/
def updateChar (charset : List Char) (changeRoll : ℚ) (glitchHit : Bool)
    (glitchDraw charDraw : ℕ) (c : Char) : Option Char :=
  if changeRoll < CHAR_CHANGE_PROBABILITY then
    if glitchHit then chooseChar GLITCH_CHARS glitchDraw
    else chooseChar charset charDraw
  else some c

/-- The resampling loop over the whole glyph buffer, threading the index
so each position consumes its own draws. -/
def updateChars (charset : List Char) (changeRoll : ℕ → ℚ)
    (glitchHit : ℕ → Bool) (glitchDraw charDraw : ℕ → ℕ) :
    ℕ → List Char → Option (List Char)
  | _, [] => some []
  | i, c :: rest =>
    match updateChar charset (changeRoll i) (glitchHit i) (glitchDraw i)
        (charDraw i) c with
    | none => none
    | some c2 =>
      match updateChars charset changeRoll glitchHit glitchDraw charDraw
          (i + 1) rest with
      | none => none
      | some rest2 => some (c2 :: rest2)

/-- Embedding of `MatrixDrop::update` (matrix.rs lines 106-139).  Returns
the updated drop and the reset flag; `none` models a panic inside the
glyph-resampling loop.  `dt` is the elapsed seconds since the previous
update, `fps` the value read from `get_framerate()`.  The integration,
jitter, off-screen check and glyph resampling happen in source order: in
particular, the off-screen early return leaves the glyph buffer
untouched. -/
def MatrixDrop.update (d : MatrixDrop) (rows : ℕ) (dt fps : ℚ)
    (jitterHit : Bool) (jitterDelta : ℚ) (changeRoll : ℕ → ℚ)
    (glitchHit : ℕ → Bool) (glitchDraw charDraw : ℕ → ℕ) :
    Option (MatrixDrop × Bool) :=
  let d1 := { d with prev_y := d.y, y := d.y + d.speed * dt * fps }
  let d2 :=
    if jitterHit then
      { d1 with speed := clampQ (d1.speed + jitterDelta) (1 / 2) 3 }
    else d1
  if d2.y > (rows : ℚ) + (d2.length : ℚ) then
    some (d2, true)
  else
    match updateChars d2.charset changeRoll glitchHit glitchDraw charDraw
        0 d2.chars with
    | none => none
    | some chars2 => some ({ d2 with chars := chars2 }, false)

/-- Embedding of `MatrixDrop::should_leave_sticky` (matrix.rs lines
217-229).  The outer `Option` marks the panic of `gen_range(0..rows)` on
an empty range; the inner `Option` is the source's return value.
`stuckRoll` is the `gen::<f32>()` draw, `rowDraw` the raw `gen_range`
draw, and the stuck probability is read from the store. -/
def MatrixDrop.should_leave_sticky (d : MatrixDrop) (rows : ℕ)
    (stuckRoll : ℚ) (rowDraw : ℕ) (cfg : Config) :
    Option (Option (ℕ × ℕ × Char)) :=
  if d.y > (rows : ℚ) + (d.length : ℚ) then
    if stuckRoll < cfg.stuck_probability then
      match d.chars.getLast? with
      | some last_char =>
        match genRangeExcl 0 rows rowDraw with
        | none => none
        | some stick_y => some (some (d.x, stick_y, last_char))
      | none => some none
    else some none
  else some none

/-! ## Stuck-character table

`sticky_chars: HashMap<(u16, u16), (char, Instant)>` (matrix.rs line 268)
is modelled as an association list with the map operations the source
uses: `contains_key`, `remove`, `insert` (which overwrites an existing
entry at the same key) and `retain`.  Timestamps are `ℚ` seconds. -/

/-- The stuck-character table: position `(column, row)` to
`(glyph, insertion time)`. -/
abbrev StickyMap := List ((ℕ × ℕ) × Char × ℚ)

/-- `HashMap::contains_key`. -/
def stickyContains (m : StickyMap) (k : ℕ × ℕ) : Bool :=
  m.any (fun e => decide (e.1 = k))

/-- `HashMap::get`, used to state properties of the table. -/
def stickyLookup (m : StickyMap) (k : ℕ × ℕ) : Option (Char × ℚ) :=
  (m.find? (fun e => decide (e.1 = k))).map (fun e => e.2)

/-- `HashMap::remove` (drops the entry at the key, if any). -/
def stickyRemove (m : StickyMap) (k : ℕ × ℕ) : StickyMap :=
  m.filter (fun e => decide (e.1 ≠ k))

/-- `HashMap::insert` (matrix.rs line 351): stores the value at the key,
overwriting an existing entry; there is no capacity check anywhere. -/
def stickyInsert (m : StickyMap) (k : ℕ × ℕ) (v : Char × ℚ) : StickyMap :=
  if stickyContains m k then
    m.map (fun e => if e.1 = k then (k, v) else e)
  else (k, v) :: m

/-- The per-frame retention purge (matrix.rs lines 313-318):
`retain(.. now.duration_since(timestamp).as_secs() < 10)`.  The `as_secs`
truncation makes the kept condition `⌊now - t⌋ < 10`. -/
def stickyPurge (m : StickyMap) (now : ℚ) : StickyMap :=
  m.filter (fun e => decide (⌊now - e.2.2⌋ < (10 : ℤ)))

/-! ## matrix.rs rendering -/

/-- One terminal write queued by `MatrixDrop::render`: either the
space-print that clears a vacated cell, or a colored glyph. -/
inductive RenderOp where
  | clearCell (x y : ℕ)
  | drawGlyph (x y : ℕ) (color : Color) (ch : Char)
  deriving DecidableEq, Repr

/-- Rust `(q.floor()) as i32` on an `f32`: the float-to-int cast
saturates at the `i32` bounds. -/
def floorToI32 (q : ℚ) : ℤ :=
  min ((2 : ℤ) ^ 31 - 1) (max (-(2 : ℤ) ^ 31) ⌊q⌋)

/-- Rust `q as u16` on a non-negative `f32`: truncate toward zero and
saturate at 65535. -/
def f32ToU16 (q : ℚ) : ℕ :=
  (min 65535 (max 0 ⌊q⌋)).toNat

/-- The inclusive integer range `lo..=hi`, empty when `hi < lo`. -/
def intRangeIncl (lo hi : ℤ) : List ℤ :=
  (List.range (hi + 1 - lo).toNat).map (fun i => lo + i)

/-- The tail-clearing phase of `render` (matrix.rs lines 150-165): for
every integer row between the old and new tail, if it is on screen
(`y >= 0 && (y as u16) < rows`, the `i32`-to-`u16` cast wrapping) and no
stuck character occupies the cell, queue a space print.  The `u16` wrap
is `% 65536`. -/
def clearOps (x : ℕ) (rows : ℕ) (sticky : StickyMap) (lo hi : ℤ) :
    List RenderOp :=
  (intRangeIncl lo hi).filterMap (fun yy =>
    if 0 ≤ yy then
      let yc := yy.toNat % 65536
      if yc < rows ∧ stickyContains sticky (x, yc) = false then
        some (.clearCell x yc)
      else none
    else none)

/-- The per-glyph color choice of `render` (matrix.rs lines 180-196).
The continuous-fade exponent `powf(1.3)` has no exact rational analogue,
so the power function is an explicit argument `powf`, applied as
`powf (i / length) (13/10)`. -/
def glyphColor (use_rgb_fade : Bool) (scheme : MatrixColorScheme)
    (powf : ℚ → ℚ → ℚ) (len i : ℕ) : Color :=
  match scheme.get_colors with
  | (bright, mid, dim, dark, darkest) =>
    if use_rgb_fade then
      if i = 0 then bright
      else
        fade_color_rgb scheme.get_base_rgb
          (1 - powf ((i : ℚ) / (len : ℚ)) (13 / 10))
    else
      if i = 0 then bright
      else if i ≤ 3 then mid
      else if i ≤ 8 then dim
      else if i ≤ 15 then dark
      else darkest

/-- The glyph-drawing phase of `render` (matrix.rs lines 171-211),
threading the trail index and the sticky map: skip glyphs whose row
`char_y = y - i` is off screen, otherwise compute the color, apply the
transient glitch/flicker substitution (`choose(..).unwrap_or(&ch)` cannot
panic), remove any stuck entry at the cell, and queue the glyph. -/
def renderGlyphs (d : MatrixDrop) (rows : ℕ) (use_rgb_fade : Bool)
    (scheme : MatrixColorScheme) (powf : ℚ → ℚ → ℚ)
    (flickerRoll glitchRoll : ℕ → Bool) (glitchDraw : ℕ → ℕ) :
    ℕ → List Char → StickyMap → List RenderOp × StickyMap
  | _, [], sticky => ([], sticky)
  | i, ch :: rest, sticky =>
    let char_y : ℚ := d.y - (i : ℚ)
    if char_y < 0 ∨ (rows : ℚ) ≤ char_y then
      renderGlyphs d rows use_rgb_fade scheme powf flickerRoll glitchRoll
        glitchDraw (i + 1) rest sticky
    else
      let yc := f32ToU16 char_y
      let color := glyphColor use_rgb_fade scheme powf d.length i
      let display_char :=
        if glitchRoll i then (chooseChar GLITCH_CHARS (glitchDraw i)).getD ch
        else if flickerRoll i then ' '
        else ch
      let sticky1 := stickyRemove sticky (d.x, yc)
      let next := renderGlyphs d rows use_rgb_fade scheme powf flickerRoll
        glitchRoll glitchDraw (i + 1) rest sticky1
      (.drawGlyph d.x yc color display_char :: next.1, next.2)

/-- Embedding of `MatrixDrop::render` (matrix.rs lines 142-214): queue
the tail clears between the old and new tail rows, then the visible
glyphs; returns the queued writes and the updated sticky map.  The
per-glyph flicker/glitch `gen_bool` outcomes are `Bool` oracles. -/
def MatrixDrop.render (d : MatrixDrop) (rows : ℕ) (use_rgb_fade : Bool)
    (scheme : MatrixColorScheme) (sticky : StickyMap)
    (powf : ℚ → ℚ → ℚ) (flickerRoll glitchRoll : ℕ → Bool)
    (glitchDraw : ℕ → ℕ) : List RenderOp × StickyMap :=
  let old_tail_y := floorToI32 (d.prev_y - (d.length : ℚ))
  let new_tail_y := floorToI32 (d.y - (d.length : ℚ))
  let clears := clearOps d.x rows sticky (min old_tail_y new_tail_y)
    (max old_tail_y new_tail_y)
  let glyphs := renderGlyphs d rows use_rgb_fade scheme powf flickerRoll
    glitchRoll glitchDraw 0 d.chars sticky
  (clears ++ glyphs.1, glyphs.2)

/-! ## matrix.rs engine grid operations

`run_matrix` keeps `drops: Vec<Option<MatrixDrop>>` with one slot per
terminal column.  The loop bodies that touch the grid (initial seeding,
resize rebuild, periodic spawning, per-frame update/replace/render) are
embedded as functions on `List (Option MatrixDrop)`. -/

/-- The random draws consumed when `run_matrix` processes one occupied
column in a frame: the `update` draws, the stuck roll and row draw of
`should_leave_sticky`, the `new` draws for a replacement drop, and the
render-phase flicker/glitch draws. -/
structure FrameOracle where
  dt : ℚ
  jitterHit : Bool
  jitterDelta : ℚ
  changeRoll : ℕ → ℚ
  glitchHit : ℕ → Bool
  glitchDraw : ℕ → ℕ
  charDraw : ℕ → ℕ
  stuckRoll : ℚ
  rowDraw : ℕ
  newDrop : DropOracle
  flickerRoll : ℕ → Bool
  glitchRollR : ℕ → Bool
  glitchDrawR : ℕ → ℕ

/-- Initial seeding (matrix.rs lines 271-276): walk the shuffled column
list, take the first `initial_drops.min(cols)` entries, and place a fresh
drop at each.  `none` models a panic inside `MatrixDrop::new`. -/
def seedCols (rows : ℕ) (charset : List Char) (cfg : Config)
    (os : ℕ → DropOracle) :
    List ℕ → List (Option MatrixDrop) → Option (List (Option MatrixDrop))
  | [], g => some g
  | c :: rest, g =>
    match MatrixDrop.new c rows charset cfg (os c) with
    | none => none
    | some d => seedCols rows charset cfg os rest (g.set c (some d))

/-- The whole seeding step: an all-`None` grid of `cols` slots, then
`seedCols` over the shuffled prefix. -/
def seedGrid (cols rows initial_drops : ℕ) (charset : List Char)
    (cfg : Config) (shuffled : List ℕ) (os : ℕ → DropOracle) :
    Option (List (Option MatrixDrop)) :=
  seedCols rows charset cfg os (shuffled.take (min initial_drops cols))
    (List.replicate cols none)

/-- Resize rebuild (matrix.rs lines 300-306): columns `x0, x0+1, ...`
(`n` of them) each reseeded with probability 0.3, otherwise left empty.
`run_matrix` invokes this with `x0 = 0` and `n` the new column count. -/
def resizeCols (rows : ℕ) (charset : List Char) (cfg : Config)
    (rolls : ℕ → ℚ) (os : ℕ → DropOracle) :
    ℕ → ℕ → Option (List (Option MatrixDrop))
  | _, 0 => some []
  | x, n + 1 =>
    let slot : Option (Option MatrixDrop) :=
      if rolls x < (3 / 10 : ℚ) then
        (MatrixDrop.new x rows charset cfg (os x)).map some
      else some none
    match slot with
    | none => none
    | some s =>
      match resizeCols rows charset cfg rolls os (x + 1) n with
      | none => none
      | some rest => some (s :: rest)

/-- Periodic spawning (matrix.rs lines 322-329): every empty slot rolls
`new_drop_probability`; a hit places a fresh drop at that column.  The
index argument is the column of the first slot of the list. -/
def spawnCols (rows : ℕ) (charset : List Char) (cfg : Config)
    (rolls : ℕ → ℚ) (os : ℕ → DropOracle) :
    ℕ → List (Option MatrixDrop) → Option (List (Option MatrixDrop))
  | _, [] => some []
  | x, none :: rest =>
    if rolls x < cfg.new_drop_probability then
      match MatrixDrop.new x rows charset cfg (os x) with
      | none => none
      | some d =>
        match spawnCols rows charset cfg rolls os (x + 1) rest with
        | none => none
        | some rest2 => some (some d :: rest2)
    else
      match spawnCols rows charset cfg rolls os (x + 1) rest with
      | none => none
      | some rest2 => some (none :: rest2)
  | x, some d :: rest =>
    match spawnCols rows charset cfg rolls os (x + 1) rest with
    | none => none
    | some rest2 => some (some d :: rest2)

/-- The stuck-character contribution of one updated drop (matrix.rs
lines 349-353): when stuck characters are enabled and the drop reported
reset, roll `should_leave_sticky` on the updated drop and insert a
winning entry into the table; `none` propagates the panic of the roll. -/
def stickyAfterReset (rows : ℕ) (cfg : Config) (enable_stuck : Bool)
    (now : ℚ) (fo : FrameOracle) (d1 : MatrixDrop) (should_reset : Bool)
    (sticky : StickyMap) : Option StickyMap :=
  if enable_stuck && should_reset then
    match d1.should_leave_sticky rows fo.stuckRoll fo.rowDraw cfg with
    | none => none
    | some none => some sticky
    | some (some (sx, sy, ch)) =>
      some (stickyInsert sticky (sx, sy) (ch, now))
  else some sticky

/-- One occupied or empty slot of the per-frame update loop (matrix.rs
lines 344-361): update the drop; apply the stuck-character contribution;
then either replace the slot with a fresh drop at the same column
(`drop.x`) or render the surviving drop. -/
def updateColumn (rows : ℕ) (charset : List Char) (cfg : Config)
    (enable_stuck use_rgb_fade : Bool) (scheme : MatrixColorScheme)
    (powf : ℚ → ℚ → ℚ) (now : ℚ) (fo : FrameOracle)
    (slot : Option MatrixDrop) (sticky : StickyMap) :
    Option (Option MatrixDrop × StickyMap) :=
  match slot with
  | none => some (none, sticky)
  | some d =>
    match d.update rows fo.dt cfg.framerate fo.jitterHit fo.jitterDelta
        fo.changeRoll fo.glitchHit fo.glitchDraw fo.charDraw with
    | none => none
    | some (d1, should_reset) =>
      match stickyAfterReset rows cfg enable_stuck now fo d1 should_reset
          sticky with
      | none => none
      | some sticky1 =>
        if should_reset then
          match MatrixDrop.new d1.x rows charset cfg fo.newDrop with
          | none => none
          | some d2 => some (some d2, sticky1)
        else
          let r := d1.render rows use_rgb_fade scheme sticky1 powf
            fo.flickerRoll fo.glitchRollR fo.glitchDrawR
          some (some d1, r.2)

/-- The per-frame update loop over every slot of the grid, threading the
sticky map left to right as the source's `for` loop does. -/
def updateLoop (rows : ℕ) (charset : List Char) (cfg : Config)
    (enable_stuck use_rgb_fade : Bool) (scheme : MatrixColorScheme)
    (powf : ℚ → ℚ → ℚ) (now : ℚ) (fos : ℕ → FrameOracle) :
    ℕ → List (Option MatrixDrop) → StickyMap →
    Option (List (Option MatrixDrop) × StickyMap)
  | _, [], sticky => some ([], sticky)
  | x, slot :: rest, sticky =>
    match updateColumn rows charset cfg enable_stuck use_rgb_fade scheme
        powf now (fos x) slot sticky with
    | none => none
    | some (slot2, sticky2) =>
      match updateLoop rows charset cfg enable_stuck use_rgb_fade scheme
          powf now fos (x + 1) rest sticky2 with
      | none => none
      | some (rest2, sticky3) => some (slot2 :: rest2, sticky3)

/-- The per-column invariant of the drop grid, stated from an arbitrary
first column `x0`: an occupied slot `j` holds a drop whose column field
is `x0 + j`. -/
def GridOkFrom (x0 : ℕ) (g : List (Option MatrixDrop)) : Prop :=
  ∀ j d, g[j]? = some (some d) → d.x = x0 + j

/-- The grid invariant of `run_matrix`: slot `i` is empty or holds a
drop whose column is `i`. -/
def GridOk (g : List (Option MatrixDrop)) : Prop := GridOkFrom 0 g

/-! ## matrix.rs run_matrix control flow

The claims about terminal restoration are about which exit paths of the
frame loop (matrix.rs lines 282-365) reach `cleanup_terminal` (line 367).
The loop body is abstracted to the event that decides the iteration's
control flow; everything the body does besides exiting is irrelevant to
where `cleanup_terminal` runs. -/

/-- The control-flow outcome of one iteration of the `'main` loop:
`interrupt` = the shared running flag was found false at the loop top
(Ctrl+C handler fired); `quitKey` = `poll`/`read` delivered a quit key
(`q`, `Q`, `Esc`, in-band Ctrl+C) and the loop breaks; `ioError` = one of
the fallible surface calls inside the body (`poll`, `read`, `execute`,
`render`, `flush`) returned `Err`, which the question-mark operator
propagates; `frameOk` = the iteration ran to the trailing sleep. -/
inductive FrameEvent where
  | interrupt
  | quitKey
  | ioError
  | frameOk
  deriving DecidableEq, Repr

/-- The result of `run_matrix` after entering the frame loop, together
with the number of times `cleanup_terminal` executed: `ok n` = returned
`Ok(())` after `n` cleanup runs, `err n` = returned `Err(..)` after `n`
cleanup runs, `running` = the event script ended with the loop still
going. -/
inductive RunOutcome where
  | ok (cleanups : ℕ)
  | err (cleanups : ℕ)
  | running
  deriving DecidableEq, Repr

/-- The exit-path structure of the `'main` loop of `run_matrix`
(matrix.rs lines 282-369): a break on the running flag or a quit key
falls through to `cleanup_terminal` exactly once and returns `Ok`; an
`Err` propagated by `?` from inside the body returns immediately,
reaching no cleanup; a completed iteration continues the loop. -/
def run_matrix_loop : List FrameEvent → RunOutcome
  | [] => .running
  | .interrupt :: _ => .ok 1
  | .quitKey :: _ => .ok 1
  | .ioError :: _ => .err 0
  | .frameOk :: rest => run_matrix_loop rest

/-- Color assignment as the spec words it (spec.md, render contract):
the head glyph (index 0) is always rendered in the bright head color; in
continuous mode every other glyph is the scheme's base RGB scaled by
`alpha = 1 - (i/length)^1.3`; in discrete mode the buckets are
mid = 1–3, dim = 4–8, dark = 9–15 and darkest = 16 and up.  Stated only
to be compared with `glyphColor`, the definition read off the source. -/
def specGlyphColor (use_rgb_fade : Bool) (scheme : MatrixColorScheme)
    (powf : ℚ → ℚ → ℚ) (len i : ℕ) : Color :=
  if i = 0 then scheme.get_colors.1
  else if use_rgb_fade then
    fade_color_rgb scheme.get_base_rgb
      (1 - powf ((i : ℚ) / (len : ℚ)) (13 / 10))
  else if 1 ≤ i ∧ i ≤ 3 then scheme.get_colors.2.1
  else if 4 ≤ i ∧ i ≤ 8 then scheme.get_colors.2.2.1
  else if 9 ≤ i ∧ i ≤ 15 then scheme.get_colors.2.2.2.1
  else scheme.get_colors.2.2.2.2

/-! ## Concrete sample states used by witnesses and counterexamples -/

/-- A drop that has fallen past the bottom of a short screen. -/
def sampleDrop : MatrixDrop :=
  { x := 3, y := 20, prev_y := 19, length := 4, speed := 1,
    chars := ['A', 'B', 'C', 'D'], charset := ['A', 'B'] }

/-- A freshly spawned drop still above the screen. -/
def freshSampleDrop : MatrixDrop :=
  { x := 0, y := -4, prev_y := -4, length := 4, speed := 1,
    chars := ['A', 'B', 'C', 'D'], charset := ['A', 'B'] }

/-! ## Claim C7: color-code resolution -/

/-- C7: `from_ansi_code 10` and `from_ansi_code 2` both give the default
green scheme; code 16 is out of range, so `main`'s resolution warns and
falls back to the default scheme rather than failing; code 9 gives a
custom scheme whose head color is white and whose base RGB triple is the
red one, not the green one. -/
theorem color_resolution_cases :
    MatrixColorScheme.from_ansi_code 10 = .Green ∧
    MatrixColorScheme.from_ansi_code 2 = .Green ∧
    resolveColor 16 = (.Green, true) ∧
    resolveColor 10 = (.Green, false) ∧
    MatrixColorScheme.from_ansi_code 9 = .Custom .Red ∧
    (MatrixColorScheme.Custom .Red).get_colors.1 = .White ∧
    (MatrixColorScheme.Custom .Red).get_base_rgb = (255, 0, 0) ∧
    (MatrixColorScheme.Custom .Red).get_base_rgb ≠ (0, 255, 0) := by
  decide

/-! ## Claim C10: should_leave_sticky guard and payload -/

/-- C10: while the drop has not yet exited (`y ≤ rows + length`),
`should_leave_sticky` returns `None` whatever the stuck probability and
the random draws; and whenever it returns `Some (c, r, g)`, the column
`c` is the drop's own column and `g` is its last glyph. -/
theorem should_leave_sticky_spec (d : MatrixDrop) (rows : ℕ)
    (stuckRoll : ℚ) (rowDraw : ℕ) (cfg : Config) :
    (d.y ≤ (rows : ℚ) + (d.length : ℚ) →
      d.should_leave_sticky rows stuckRoll rowDraw cfg = some none)
    ∧ (∀ c r g, d.should_leave_sticky rows stuckRoll rowDraw cfg =
        some (some (c, r, g)) → c = d.x ∧ d.chars.getLast? = some g) := by
  constructor
  · intro h
    unfold MatrixDrop.should_leave_sticky
    rw [if_neg (not_lt.mpr h)]
  · intro c r g h
    unfold MatrixDrop.should_leave_sticky at h
    split at h
    · split at h
      · cases hlast : d.chars.getLast? with
        | none => rw [hlast] at h; simp at h
        | some lc =>
          rw [hlast] at h
          cases hg : genRangeExcl 0 rows rowDraw with
          | none => rw [hg] at h; simp at h
          | some sy =>
            rw [hg] at h
            simp only [Option.some.injEq] at h
            obtain ⟨hc, hr, hgc⟩ := Prod.mk.injEq .. ▸ h.symm
            · exact ⟨by simp_all, by simp_all⟩
      · simp at h
    · simp at h

/-- Witness for C10 at a drop that has not exited a 10-row screen. -/
theorem should_leave_sticky_spec_wit :
    MatrixDrop.should_leave_sticky freshSampleDrop 10 0 0 defaultConfig =
      some none :=
  (should_leave_sticky_spec freshSampleDrop 10 0 0 defaultConfig).1
    (by norm_num [freshSampleDrop])

/-! ## Claim C4: update expiry boundary -/

/-- C4: one `update` call reports expiry exactly when the integrated head
position `y + speed * dt * fps` exceeds `rows + length`: never one tick
early (no `expired` at or below the boundary) and never late (the
above-boundary case always returns `expired`, and cannot panic since the
early return precedes the glyph resampling). -/
theorem update_expired_iff_boundary (d : MatrixDrop) (rows : ℕ)
    (dt fps : ℚ) (jitterHit : Bool) (jitterDelta : ℚ) (changeRoll : ℕ → ℚ)
    (glitchHit : ℕ → Bool) (glitchDraw charDraw : ℕ → ℕ) :
    (∀ d2 e, d.update rows dt fps jitterHit jitterDelta changeRoll glitchHit
        glitchDraw charDraw = some (d2, e) →
      (e = true ↔ d.y + d.speed * dt * fps > (rows : ℚ) + (d.length : ℚ)))
    ∧ (d.y + d.speed * dt * fps > (rows : ℚ) + (d.length : ℚ) →
      ∃ d2, d.update rows dt fps jitterHit jitterDelta changeRoll glitchHit
        glitchDraw charDraw = some (d2, true)) := by
  cases jitterHit <;>
    simp only [MatrixDrop.update, Bool.false_eq_true, if_false, if_true] <;>
    constructor
  · intro d2 e h
    by_cases hc : d.y + d.speed * dt * fps > (rows : ℚ) + (d.length : ℚ)
    · rw [if_pos hc] at h
      simp only [Option.some.injEq, Prod.mk.injEq] at h
      simp [h.2.symm, hc]
    · rw [if_neg hc] at h
      cases hu : updateChars d.charset changeRoll glitchHit glitchDraw
          charDraw 0 d.chars with
      | none => rw [hu] at h; simp at h
      | some cs =>
        rw [hu] at h
        simp only [Option.some.injEq, Prod.mk.injEq] at h
        simp [h.2.symm, hc]
  · intro hgt
    rw [if_pos hgt]
    exact ⟨_, rfl⟩
  · intro d2 e h
    by_cases hc : d.y + d.speed * dt * fps > (rows : ℚ) + (d.length : ℚ)
    · rw [if_pos hc] at h
      simp only [Option.some.injEq, Prod.mk.injEq] at h
      simp [h.2.symm, hc]
    · rw [if_neg hc] at h
      cases hu : updateChars d.charset changeRoll glitchHit glitchDraw
          charDraw 0 d.chars with
      | none => rw [hu] at h; simp at h
      | some cs =>
        rw [hu] at h
        simp only [Option.some.injEq, Prod.mk.injEq] at h
        simp [h.2.symm, hc]
  · intro hgt
    rw [if_pos hgt]
    exact ⟨_, rfl⟩

/-- Witness for C4 at a drop well past the boundary of a 5-row screen. -/
theorem update_expired_iff_boundary_wit :
    ∃ d2, MatrixDrop.update sampleDrop 5 1 12 false 0 (fun _ => 1)
      (fun _ => false) (fun _ => 0) (fun _ => 0) = some (d2, true) :=
  (update_expired_iff_boundary sampleDrop 5 1 12 false 0 (fun _ => 1)
    (fun _ => false) (fun _ => 0) (fun _ => 0)).2 (by norm_num [sampleDrop])

/-! ## Claim C6: freshly constructed drops -/

lemma genRangeIncl_bounds (lo hi draw : ℕ) (h : lo ≤ hi) :
    ∃ v, genRangeIncl lo hi draw = some v ∧ lo ≤ v ∧ v ≤ hi := by
  refine ⟨lo + draw % (hi - lo + 1), ?_, Nat.le_add_right .., ?_⟩
  · simp [genRangeIncl, h]
  · have hm : draw % (hi - lo + 1) < hi - lo + 1 :=
      Nat.mod_lt _ (Nat.succ_pos _)
    omega

lemma chooseChar_mem (l : List Char) (draw : ℕ) (h : l ≠ []) :
    ∃ c, chooseChar l draw = some c ∧ c ∈ l := by
  have hlen : 0 < l.length := List.length_pos.mpr h
  have hlt : draw % l.length < l.length := Nat.mod_lt _ hlen
  exact ⟨l.get ⟨draw % l.length, hlt⟩,
    by simp [chooseChar, List.get?_eq_get hlt], List.get_mem ..⟩

lemma sampleChars_exists (charset : List Char) (charDraw : ℕ → ℕ)
    (h : charset ≠ []) :
    ∀ n i, ∃ cs, sampleChars charset charDraw i n = some cs ∧
      cs.length = n ∧ ∀ c ∈ cs, c ∈ charset := by
  intro n
  induction n with
  | zero => exact fun i => ⟨[], rfl, rfl, by simp⟩
  | succ m ih =>
    intro i
    obtain ⟨c, hc, hcm⟩ := chooseChar_mem charset (charDraw i) h
    obtain ⟨cs, hcs, hlen, hmem⟩ := ih (i + 1)
    refine ⟨c :: cs, ?_, by simp [hlen], ?_⟩
    · simp only [sampleChars, hc, hcs]
    · intro a ha
      rcases List.mem_cons.mp ha with rfl | ha2
      · exact hcm
      · exact hmem a ha2

/-- C6: with ordered trail bounds and a nonempty palette, construction
succeeds and the new drop has `y = -length`, `prev_y = -length`, a length
drawn inside `[min_trail, max_trail]`, and a glyph buffer of exactly
`length` characters all taken from the active palette. -/
theorem new_drop_fields (x rows : ℕ) (charset : List Char) (cfg : Config)
    (o : DropOracle) (hb : cfg.min_trail ≤ cfg.max_trail)
    (hcs : charset ≠ []) :
    ∃ d, MatrixDrop.new x rows charset cfg o = some d ∧
      d.y = -(d.length : ℚ) ∧ d.prev_y = -(d.length : ℚ) ∧
      cfg.min_trail ≤ d.length ∧ d.length ≤ cfg.max_trail ∧
      d.chars.length = d.length ∧ ∀ c ∈ d.chars, c ∈ charset := by
  obtain ⟨L, hL, hLlo, hLhi⟩ :=
    genRangeIncl_bounds cfg.min_trail cfg.max_trail o.lenDraw hb
  obtain ⟨cs, hcs2, hlen, hmem⟩ := sampleChars_exists charset o.charDraw hcs L 0
  refine ⟨{ x := x, y := -(L : ℚ), prev_y := -(L : ℚ), length := L,
            speed := 1 + o.speedDraw * SPEED_VARIATION, chars := cs,
            charset := charset }, ?_, rfl, rfl, hLlo, hLhi, hlen, hmem⟩
  simp only [MatrixDrop.new, hL, hcs2]

/-- Witness for C6 with the default bounds and a two-glyph palette. -/
theorem new_drop_fields_wit :
    ∃ d, MatrixDrop.new 2 10 ['A', 'B'] defaultConfig
        ⟨5, 0, fun _ => 0⟩ = some d ∧
      d.y = -(d.length : ℚ) ∧ d.prev_y = -(d.length : ℚ) ∧
      defaultConfig.min_trail ≤ d.length ∧
      d.length ≤ defaultConfig.max_trail ∧
      d.chars.length = d.length ∧ ∀ c ∈ d.chars, c ∈ ['A', 'B'] :=
  new_drop_fields 2 10 ['A', 'B'] defaultConfig ⟨5, 0, fun _ => 0⟩
    (by decide) (by decide)

/-! ## Claim C5: configuration-store setters -/

lemma clampQ_bounds (x lo hi : ℚ) (h : lo ≤ hi) :
    lo ≤ clampQ x lo hi ∧ clampQ x lo hi ≤ hi :=
  ⟨le_min h (le_max_left ..), min_le_left ..⟩

lemma set_min_trail_eq (cfg : Config) (len : ℕ)
    (h : TRAIL_MIN_LIMIT ≤ min TRAIL_MAX_LIMIT cfg.max_trail) :
    set_min_trail cfg len = some
      { cfg with min_trail := (min (min TRAIL_MAX_LIMIT cfg.max_trail)
          (max TRAIL_MIN_LIMIT len)) } := by
  simp only [set_min_trail, rustClampNat, if_pos h, Option.map_some']

lemma set_max_trail_eq (cfg : Config) (len : ℕ)
    (h : max cfg.min_trail TRAIL_MIN_LIMIT ≤ TRAIL_MAX_LIMIT) :
    set_max_trail cfg len = some
      { cfg with max_trail := (min TRAIL_MAX_LIMIT
          (max (max cfg.min_trail TRAIL_MIN_LIMIT) len)) } := by
  simp only [set_max_trail, rustClampNat, if_pos h, Option.map_some']

lemma applySetter_preserves (cfg : Config) (h : ConfigInv cfg)
    (c : SetterCall) :
    ∃ cfg2, applySetter cfg c = some cfg2 ∧ ConfigInv cfg2 := by
  obtain ⟨h1, h2, h3, hg0, hg1, hf0, hf1, hs0, hs1, hn0, hn1⟩ := h
  simp only [TRAIL_MIN_LIMIT, TRAIL_MAX_LIMIT] at h1 h3
  cases c with
  | minTrail len =>
    refine ⟨{ cfg with min_trail := (min (min TRAIL_MAX_LIMIT cfg.max_trail)
        (max TRAIL_MIN_LIMIT len)) }, ?_, ?_⟩
    · simpa only [applySetter] using set_min_trail_eq cfg len (by
        simp only [TRAIL_MIN_LIMIT, TRAIL_MAX_LIMIT]; omega)
    · exact ⟨by simp only [TRAIL_MIN_LIMIT, TRAIL_MAX_LIMIT]; omega,
        by simp only [TRAIL_MIN_LIMIT, TRAIL_MAX_LIMIT]; omega,
        by simp only [TRAIL_MIN_LIMIT, TRAIL_MAX_LIMIT]; omega,
        hg0, hg1, hf0, hf1, hs0, hs1, hn0, hn1⟩
  | maxTrail len =>
    refine ⟨{ cfg with max_trail := (min TRAIL_MAX_LIMIT
        (max (max cfg.min_trail TRAIL_MIN_LIMIT) len)) }, ?_, ?_⟩
    · simpa only [applySetter] using set_max_trail_eq cfg len (by
        simp only [TRAIL_MIN_LIMIT, TRAIL_MAX_LIMIT]; omega)
    · exact ⟨by simp only [TRAIL_MIN_LIMIT, TRAIL_MAX_LIMIT]; omega,
        by simp only [TRAIL_MIN_LIMIT, TRAIL_MAX_LIMIT]; omega,
        by simp only [TRAIL_MIN_LIMIT, TRAIL_MAX_LIMIT]; omega,
        hg0, hg1, hf0, hf1, hs0, hs1, hn0, hn1⟩
  | framerate fps =>
    exact ⟨_, rfl, h1, h2, h3, hg0, hg1, hf0, hf1, hs0, hs1, hn0, hn1⟩
  | glitchProb p =>
    have := clampQ_bounds p 0 1 (by norm_num)
    exact ⟨_, rfl, h1, h2, h3, this.1, this.2, hf0, hf1, hs0, hs1, hn0, hn1⟩
  | flickerProb p =>
    have := clampQ_bounds p 0 1 (by norm_num)
    exact ⟨_, rfl, h1, h2, h3, hg0, hg1, this.1, this.2, hs0, hs1, hn0, hn1⟩
  | stuckProb p =>
    have := clampQ_bounds p 0 1 (by norm_num)
    exact ⟨_, rfl, h1, h2, h3, hg0, hg1, hf0, hf1, this.1, this.2, hn0, hn1⟩
  | newDropProb p =>
    have := clampQ_bounds p 0 1 (by norm_num)
    exact ⟨_, rfl, h1, h2, h3, hg0, hg1, hf0, hf1, hs0, hs1, this.1, this.2⟩

lemma applySetters_preserves (calls : List SetterCall) :
    ∀ cfg, ConfigInv cfg →
      ∃ cfg2, applySetters cfg calls = some cfg2 ∧ ConfigInv cfg2 := by
  induction calls with
  | nil => exact fun cfg h => ⟨cfg, rfl, h⟩
  | cons c rest ih =>
    intro cfg h
    obtain ⟨cfg1, hc1, hinv1⟩ := applySetter_preserves cfg h c
    obtain ⟨cfg2, hc2, hinv2⟩ := ih cfg1 hinv1
    exact ⟨cfg2, by simp [applySetters, hc1, hc2], hinv2⟩

lemma defaultConfig_inv : ConfigInv defaultConfig := by
  refine ⟨?_, ?_, ?_, ?_, ?_, ?_, ?_, ?_, ?_, ?_, ?_⟩ <;>
    norm_num [defaultConfig, TRAIL_MIN_LIMIT, TRAIL_MAX_LIMIT]

lemma configInv_claim (cfg : Config) (h : ConfigInv cfg) :
    ConfigClaimInv cfg := by
  obtain ⟨h1, h2, h3, hrest⟩ := h
  exact ⟨h2, hrest⟩

/-- C5: starting from the initial store, any sequence of setter calls in
any order always succeeds (out-of-range input is clamped, never
rejected) and leaves `min_trail ≤ max_trail` and every probability in
`[0, 1]`; moreover each trail setter stores its input clamped against
both the static limits and the current value of the paired field, and
each probability setter stores its input clamped into `[0, 1]`. -/
theorem config_setters_invariant :
    (∀ calls, ∃ cfg, applySetters defaultConfig calls = some cfg ∧
      ConfigClaimInv cfg)
    ∧ (∀ cfg len, ConfigInv cfg → set_min_trail cfg len = some
        { cfg with min_trail := (min (min TRAIL_MAX_LIMIT cfg.max_trail)
            (max TRAIL_MIN_LIMIT len)) })
    ∧ (∀ cfg len, ConfigInv cfg → set_max_trail cfg len = some
        { cfg with max_trail := (min TRAIL_MAX_LIMIT
            (max (max cfg.min_trail TRAIL_MIN_LIMIT) len)) })
    ∧ (∀ cfg p, set_glitch_probability cfg p =
        { cfg with glitch_probability := min 1 (max 0 p) })
    ∧ (∀ cfg p, set_flicker_probability cfg p =
        { cfg with flicker_probability := min 1 (max 0 p) })
    ∧ (∀ cfg p, set_stuck_probability cfg p =
        { cfg with stuck_probability := min 1 (max 0 p) })
    ∧ (∀ cfg p, set_new_drop_probability cfg p =
        { cfg with new_drop_probability := min 1 (max 0 p) }) := by
  refine ⟨?_, ?_, ?_, fun cfg p => rfl, fun cfg p => rfl, fun cfg p => rfl,
    fun cfg p => rfl⟩
  · intro calls
    obtain ⟨cfg2, hc, hinv⟩ :=
      applySetters_preserves calls defaultConfig defaultConfig_inv
    exact ⟨cfg2, hc, configInv_claim cfg2 hinv⟩
  · intro cfg len h
    obtain ⟨h1, h2, h3, _⟩ := h
    refine set_min_trail_eq cfg len ?_
    simp only [TRAIL_MIN_LIMIT, TRAIL_MAX_LIMIT] at h1 h3 ⊢
    omega
  · intro cfg len h
    obtain ⟨h1, h2, h3, _⟩ := h
    refine set_max_trail_eq cfg len ?_
    simp only [TRAIL_MIN_LIMIT, TRAIL_MAX_LIMIT] at h1 h3 ⊢
    omega

/-- Witness for C5: an out-of-range `set_min_trail 100` against the
default store clamps to the current `max_trail` of 25. -/
theorem config_setters_invariant_wit :
    set_min_trail defaultConfig 100 = some
      { defaultConfig with min_trail := (min
          (min TRAIL_MAX_LIMIT defaultConfig.max_trail)
          (max TRAIL_MIN_LIMIT 100)) } :=
  config_setters_invariant.2.1 defaultConfig 100 defaultConfig_inv

/-! ## Claim C1: stuck-table insertion -/

lemma stickyLookup_cons_ne (e : (ℕ × ℕ) × Char × ℚ) (m : StickyMap)
    (k : ℕ × ℕ) (h : e.1 ≠ k) :
    stickyLookup (e :: m) k = stickyLookup m k := by
  simp [stickyLookup, List.find?_cons, h]

lemma stickyLookup_map_ne (m : StickyMap) (k k2 : ℕ × ℕ) (v : Char × ℚ)
    (h : k2 ≠ k) :
    stickyLookup (m.map (fun e => if e.1 = k then (k, v) else e)) k2 =
      stickyLookup m k2 := by
  induction m with
  | nil => rfl
  | cons e rest ih =>
    by_cases he : e.1 = k
    · rw [List.map_cons, if_pos he,
        stickyLookup_cons_ne ((k, v)) _ k2 (fun hk => h hk.symm),
        stickyLookup_cons_ne e rest k2 (by rw [he]; exact fun hk => h hk.symm),
        ih]
    · by_cases he2 : e.1 = k2
      · rw [List.map_cons, if_neg he]
        simp [stickyLookup, List.find?_cons, he2]
      · rw [List.map_cons, if_neg he, stickyLookup_cons_ne e _ k2 he2,
          stickyLookup_cons_ne e rest k2 he2, ih]

lemma stickyLookup_map_self (m : StickyMap) (k : ℕ × ℕ) (v : Char × ℚ)
    (h : stickyContains m k = true) :
    stickyLookup (m.map (fun e => if e.1 = k then (k, v) else e)) k =
      some v := by
  induction m with
  | nil => simp [stickyContains] at h
  | cons e rest ih =>
    by_cases he : e.1 = k
    · rw [List.map_cons, if_pos he]
      simp [stickyLookup, List.find?_cons]
    · rw [List.map_cons, if_neg he, stickyLookup_cons_ne e _ k he]
      exact ih (by simpa [stickyContains, he] using h)

/-- C1 counterexample: the stuck-table insert of the engine
(matrix.rs line 351) has no capacity check at all: a table already
holding two entries (standing for any purported configured maximum of
two) accepts a third entry — the size changes, so the insertion is not a
silent no-op at capacity — and inserting at an occupied cell replaces
the entry that was there rather than failing. -/
theorem stuck_insert_capacity_cex :
    (stickyInsert [((0, 0), ('A', 0)), ((1, 1), ('B', 0))]
      (2, 2) ('C', 5)).length = 3 ∧
    stickyLookup (stickyInsert [((0, 0), ('A', 0)), ((1, 1), ('B', 0))]
      (0, 0) ('Z', 5)) (0, 0) = some ('Z', 5) ∧
    stickyLookup [((0, 0), ('A', 0)), ((1, 1), ('B', 0))]
      (0, 0) = some ('A', 0) :=
  ⟨rfl, rfl, rfl⟩

/-- C1 (amended): the stuck-character table is unbounded; `insert`
always stores its entry.  At a fresh position the table grows by exactly
one entry; at an occupied position the table size is unchanged and the
new glyph replaces the old one; entries at other positions are never
evicted by an insert. -/
theorem stuck_insert_unbounded (m : StickyMap) (k : ℕ × ℕ)
    (v : Char × ℚ) :
    (stickyContains m k = false →
      stickyInsert m k v = (k, v) :: m ∧
      (stickyInsert m k v).length = m.length + 1)
    ∧ (stickyContains m k = true →
      (stickyInsert m k v).length = m.length ∧
      stickyLookup (stickyInsert m k v) k = some v)
    ∧ (∀ k2, k2 ≠ k →
      stickyLookup (stickyInsert m k v) k2 = stickyLookup m k2) := by
  refine ⟨?_, ?_, ?_⟩
  · intro h
    unfold stickyInsert
    rw [h]
    simp
  · intro h
    unfold stickyInsert
    rw [h]
    simp only [if_true]
    exact ⟨by simp, stickyLookup_map_self m k v h⟩
  · intro k2 h
    by_cases hc : stickyContains m k
    · simp only [stickyInsert, hc, if_true]
      exact stickyLookup_map_ne m k k2 v h
    · simp only [stickyInsert, hc, Bool.false_eq_true, if_false]
      exact stickyLookup_cons_ne (k, v) m k2 (by simpa using h.symm)

/-- Witness for the amended C1 at the empty table. -/
theorem stuck_insert_unbounded_wit :
    stickyInsert [] (0, 0) ('A', 3) = [((0, 0), ('A', 3))] ∧
    (stickyInsert [] (0, 0) ('A', 3)).length = ([] : StickyMap).length + 1 :=
  (stuck_insert_unbounded [] (0, 0) ('A', 3)).1 rfl

/-! ## Claim C2: terminal restoration on exit paths -/

/-- C2 (code behavior): the quit-keystroke and interrupt-flag exits of
the frame loop reach the terminal-restore sequence exactly once, but a
mid-frame surface write error propagates out of `run_matrix` through the
question-mark operator without reaching `cleanup_terminal` at all: zero
restore sequences on that exit path, contradicting the claim that every
exit path restores the terminal. -/
theorem run_matrix_cleanup_paths :
    run_matrix_loop [.frameOk, .quitKey] = .ok 1 ∧
    run_matrix_loop [.interrupt] = .ok 1 ∧
    run_matrix_loop [.frameOk, .frameOk, .interrupt] = .ok 1 ∧
    run_matrix_loop [.frameOk, .ioError] = .err 0 := by
  decide

/-! ## Claim C3: degenerate terminal geometry -/

lemma updateChar_exists (charset : List Char) (cr : ℚ) (gh : Bool)
    (gd cd : ℕ) (c : Char) (h : charset ≠ []) :
    ∃ c2, updateChar charset cr gh gd cd c = some c2 := by
  unfold updateChar
  split
  · cases gh with
    | true =>
      exact (chooseChar_mem GLITCH_CHARS gd (by decide)).imp
        (fun c2 hc => by simp [hc.1])
    | false =>
      exact (chooseChar_mem charset cd h).imp (fun c2 hc => by simp [hc.1])
  · exact ⟨c, rfl⟩

lemma updateChars_exists (charset : List Char) (cr : ℕ → ℚ)
    (gh : ℕ → Bool) (gd cd : ℕ → ℕ) (h : charset ≠ []) :
    ∀ cs i, ∃ cs2, updateChars charset cr gh gd cd i cs = some cs2 := by
  intro cs
  induction cs with
  | nil => exact fun i => ⟨[], rfl⟩
  | cons c rest ih =>
    intro i
    obtain ⟨c2, hc2⟩ := updateChar_exists charset (cr i) (gh i) (gd i)
      (cd i) c h
    obtain ⟨rest2, hrest⟩ := ih (i + 1)
    exact ⟨c2 :: rest2, by simp only [updateChars, hc2, hrest]⟩

lemma renderGlyphs_zero_rows (d : MatrixDrop) (u : Bool)
    (s : MatrixColorScheme) (p : ℚ → ℚ → ℚ) (fr gr : ℕ → Bool)
    (gd : ℕ → ℕ) :
    ∀ cs i sticky, renderGlyphs d 0 u s p fr gr gd i cs sticky =
      ([], sticky) := by
  intro cs
  induction cs with
  | nil => intro i sticky; rfl
  | cons c rest ih =>
    intro i sticky
    unfold renderGlyphs
    rw [if_pos]
    · exact ih (i + 1) sticky
    · rcases lt_or_ge (d.y - (i : ℚ)) 0 with hlt | hge
      · exact Or.inl hlt
      · exact Or.inr (by simpa using hge)

lemma clearOps_zero_rows (x : ℕ) (sticky : StickyMap) (lo hi : ℤ) :
    clearOps x 0 sticky lo hi = [] := by
  unfold clearOps
  rw [List.filterMap_eq_nil_iff.mpr]
  intro yy _
  split
  · rw [if_neg]
    simp
  · rfl

/-- C3 counterexample: with `rows = 0` the engine is neither panic-free
nor a no-op.  `should_leave_sticky` on an exited drop that wins the
stuck roll reaches `gen_range(0..0)`, which panics on the empty range
(the `none` result below); and `update` at `rows = 0` still advances
the head position (here from -4 to 2), so update is not a no-op in
degenerate geometry. -/
theorem degenerate_geometry_cex :
    MatrixDrop.should_leave_sticky sampleDrop 0 0 0 defaultConfig = none ∧
    (MatrixDrop.update freshSampleDrop 0 (1 / 2) 12 false 0 (fun _ => 1)
        (fun _ => false) (fun _ => 0) (fun _ => 0)).map
      (fun r => (r.1.y, r.2)) = some (2, false) ∧
    freshSampleDrop.y ≠ 2 := by
  refine ⟨?_, ?_, ?_⟩
  · unfold MatrixDrop.should_leave_sticky
    rw [if_pos (by norm_num [sampleDrop]),
      if_pos (by norm_num [sampleDrop, defaultConfig])]
    simp [sampleDrop, genRangeExcl]
  · norm_num [MatrixDrop.update, freshSampleDrop, updateChars, updateChar,
      CHAR_CHANGE_PROBABILITY]
  · norm_num [freshSampleDrop]

/-- C3 (amended): in degenerate geometry the constructor, the update
step and the render pass cannot panic (given a nonempty palette and
ordered trail bounds), rendering with `rows = 0` writes nothing, the
expiry-roll call is panic-free whenever `rows ≥ 1`, and with `cols = 0`
seeding and spawning produce the empty grid; however
`should_leave_sticky` can panic when `rows = 0` (see the counterexample)
and `update` still advances the drop when `rows = 0` with `cols > 0`. -/
theorem degenerate_geometry_safe :
    (∀ x rows charset cfg o, cfg.min_trail ≤ cfg.max_trail →
      charset ≠ [] → ∃ d, MatrixDrop.new x rows charset cfg o = some d)
    ∧ (∀ (d : MatrixDrop) rows dt fps jh jd cr gh gd cd, d.charset ≠ [] →
      ∃ r, d.update rows dt fps jh jd cr gh gd cd = some r)
    ∧ (∀ (d : MatrixDrop) u s sticky p fr gr gd,
      d.render 0 u s sticky p fr gr gd = ([], sticky))
    ∧ (∀ (d : MatrixDrop) rows sr rd cfg, 0 < rows →
      ∃ r, d.should_leave_sticky rows sr rd cfg = some r)
    ∧ (∀ rows k charset cfg sh os,
      seedGrid 0 rows k charset cfg sh os = some [])
    ∧ (∀ rows charset cfg rolls os x,
      spawnCols rows charset cfg rolls os x [] = some []) := by
  refine ⟨?_, ?_, ?_, ?_, ?_, ?_⟩
  · intro x rows charset cfg o hb hcs
    obtain ⟨L, hL, _, _⟩ :=
      genRangeIncl_bounds cfg.min_trail cfg.max_trail o.lenDraw hb
    obtain ⟨cs, hcs2, _, _⟩ := sampleChars_exists charset o.charDraw hcs L 0
    exact ⟨{ x := x, y := -(L : ℚ), prev_y := -(L : ℚ), length := L,
             speed := 1 + o.speedDraw * SPEED_VARIATION, chars := cs,
             charset := charset }, by simp only [MatrixDrop.new, hL, hcs2]⟩
  · intro d rows dt fps jh jd cr gh gd cd hcs
    cases jh <;>
      simp only [MatrixDrop.update, Bool.false_eq_true, if_false, if_true] <;>
      split
    · exact ⟨_, rfl⟩
    · obtain ⟨cs2, h2⟩ := updateChars_exists d.charset cr gh gd cd hcs d.chars 0
      rw [h2]
      exact ⟨_, rfl⟩
    · exact ⟨_, rfl⟩
    · obtain ⟨cs2, h2⟩ := updateChars_exists d.charset cr gh gd cd hcs d.chars 0
      rw [h2]
      exact ⟨_, rfl⟩
  · intro d u s sticky p fr gr gd
    simp only [MatrixDrop.render]
    rw [clearOps_zero_rows, renderGlyphs_zero_rows]
    rfl
  · intro d rows sr rd cfg hrows
    unfold MatrixDrop.should_leave_sticky
    split
    · split
      · cases hlast : d.chars.getLast? with
        | none => exact ⟨_, rfl⟩
        | some lc =>
          have : genRangeExcl 0 rows rd = some (0 + rd % (rows - 0)) := by
            simp [genRangeExcl, hrows]
          rw [this]
          exact ⟨_, rfl⟩
      · exact ⟨_, rfl⟩
    · exact ⟨_, rfl⟩
  · intro rows k charset cfg sh os
    simp [seedGrid, seedCols]
  · intro rows charset cfg rolls os x
    rfl

/-- Witness for the amended C3: construction succeeds in a 0-row
terminal with a one-glyph palette and the default bounds. -/
theorem degenerate_geometry_safe_wit :
    ∃ d, MatrixDrop.new 0 0 ['A'] defaultConfig
      ⟨0, 0, fun _ => 0⟩ = some d :=
  degenerate_geometry_safe.1 0 0 ['A'] defaultConfig ⟨0, 0, fun _ => 0⟩
    (by decide) (by decide)

/-! ## Claim C8: per-glyph color assignment -/

lemma glyphColor_eq_spec (u : Bool) (s : MatrixColorScheme)
    (p : ℚ → ℚ → ℚ) (len i : ℕ) :
    glyphColor u s p len i = specGlyphColor u s p len i := by
  cases s <;> cases u <;>
    simp only [glyphColor, specGlyphColor, MatrixColorScheme.get_colors] <;>
    split_ifs <;> first | rfl | omega

lemma renderGlyphs_mem (d : MatrixDrop) (rows : ℕ) (u : Bool)
    (s : MatrixColorScheme) (p : ℚ → ℚ → ℚ) (fr gr : ℕ → Bool)
    (gd : ℕ → ℕ) :
    ∀ (cs : List Char) (j i0 : ℕ) (sticky : StickyMap), j < cs.length →
      0 ≤ d.y - ((i0 + j : ℕ) : ℚ) →
      d.y - ((i0 + j : ℕ) : ℚ) < (rows : ℚ) →
      ∃ ch, RenderOp.drawGlyph d.x (f32ToU16 (d.y - ((i0 + j : ℕ) : ℚ)))
        (glyphColor u s p d.length (i0 + j)) ch ∈
        (renderGlyphs d rows u s p fr gr gd i0 cs sticky).1 := by
  intro cs
  induction cs with
  | nil =>
    intro j i0 sticky hj
    exact absurd hj (by simp)
  | cons c rest ih =>
    intro j i0 sticky hj h0 hr
    cases j with
    | zero =>
      simp only [Nat.add_zero] at h0 hr ⊢
      unfold renderGlyphs
      rw [if_neg (by
        rintro (hl | hge)
        · exact absurd hl (not_lt.mpr h0)
        · exact absurd hge (not_le.mpr hr))]
      exact ⟨_, List.mem_cons_self _ _⟩
    | succ j2 =>
      have harith : i0 + (j2 + 1) = (i0 + 1) + j2 := by omega
      rw [harith] at h0 hr ⊢
      have hj2 : j2 < rest.length := by simpa using hj
      unfold renderGlyphs
      by_cases hv : d.y - (i0 : ℚ) < 0 ∨ (rows : ℚ) ≤ d.y - (i0 : ℚ)
      · rw [if_pos hv]
        exact ih j2 (i0 + 1) sticky hj2 h0 hr
      · rw [if_neg hv]
        obtain ⟨ch, hch⟩ := ih j2 (i0 + 1)
          (stickyRemove sticky (d.x, f32ToU16 (d.y - (i0 : ℚ)))) hj2 h0 hr
        exact ⟨ch, List.mem_cons_of_mem _ hch⟩

/-- C8: the color the render pass queues for the glyph at trail index
`i` follows the spec formula exactly: index 0 always gets the bright
head color in both modes; continuous mode scales the base RGB by
`1 - (i/length)^1.3`; discrete mode uses the buckets 1–3 (mid), 4–8
(dim), 9–15 (dark) and 16+ (darkest).  The first conjunct identifies
the source's color choice with the spec formula; the second shows every
visible glyph is queued with that color. -/
theorem render_color_assignment :
    (∀ u s p len i, glyphColor u s p len i = specGlyphColor u s p len i)
    ∧ (∀ (d : MatrixDrop) (rows : ℕ) (u : Bool) (s : MatrixColorScheme)
        (p : ℚ → ℚ → ℚ) (fr gr : ℕ → Bool) (gd : ℕ → ℕ)
        (sticky : StickyMap) (i : ℕ),
        i < d.chars.length → 0 ≤ d.y - (i : ℚ) →
        d.y - (i : ℚ) < (rows : ℚ) →
        ∃ ch, RenderOp.drawGlyph d.x (f32ToU16 (d.y - (i : ℚ)))
          (specGlyphColor u s p d.length i) ch ∈
          (d.render rows u s sticky p fr gr gd).1) := by
  refine ⟨glyphColor_eq_spec, ?_⟩
  intro d rows u s p fr gr gd sticky i hi h0 hr
  obtain ⟨ch, hch⟩ := renderGlyphs_mem d rows u s p fr gr gd d.chars i 0
    sticky (by simpa using hi) (by simpa using h0) (by simpa using hr)
  refine ⟨ch, ?_⟩
  unfold MatrixDrop.render
  apply List.mem_append_right
  rw [← glyphColor_eq_spec]
  simpa using hch

/-- Witness for C8: the head glyph of a drop at `y = 20` on a 30-row
screen is queued in the bright head color of the green scheme. -/
theorem render_color_assignment_wit :
    ∃ ch, RenderOp.drawGlyph sampleDrop.x
      (f32ToU16 (sampleDrop.y - ((0 : ℕ) : ℚ)))
      (specGlyphColor false .Green (fun _ _ => 0) sampleDrop.length 0) ch ∈
      (sampleDrop.render 30 false .Green [] (fun _ _ => 0) (fun _ => false)
        (fun _ => false) (fun _ => 0)).1 :=
  render_color_assignment.2 sampleDrop 30 false .Green (fun _ _ => 0)
    (fun _ => false) (fun _ => false) (fun _ => 0) [] 0
    (by norm_num [sampleDrop]) (by norm_num [sampleDrop])
    (by norm_num [sampleDrop])

/-! ## Claim C9: one drop per column -/

lemma gridOkFrom_nil (x0 : ℕ) : GridOkFrom x0 [] := by
  intro j d h
  simp at h

lemma gridOkFrom_cons (x0 : ℕ) (slot : Option MatrixDrop)
    (rest : List (Option MatrixDrop)) :
    GridOkFrom x0 (slot :: rest) ↔
      (∀ d, slot = some d → d.x = x0) ∧ GridOkFrom (x0 + 1) rest := by
  constructor
  · intro h
    refine ⟨fun d hd => ?_, fun j d hd => ?_⟩
    · have := h 0 d (by simpa using hd)
      omega
    · have := h (j + 1) d (by simpa using hd)
      omega
  · rintro ⟨h1, h2⟩ j d hd
    cases j with
    | zero =>
      have := h1 d (by simpa using hd)
      omega
    | succ j2 =>
      have := h2 j2 d (by simpa using hd)
      omega

lemma gridOk_replicate (n : ℕ) : GridOk (List.replicate n none) := by
  intro j d h
  rw [List.getElem?_replicate] at h
  split at h
  · simp at h
  · cases h

lemma new_x (x rows : ℕ) (charset : List Char) (cfg : Config)
    (o : DropOracle) (d : MatrixDrop)
    (h : MatrixDrop.new x rows charset cfg o = some d) : d.x = x := by
  unfold MatrixDrop.new at h
  split at h
  · cases h
  · split at h
    · cases h
    · simp only [Option.some.injEq] at h
      subst h
      rfl

lemma gridOk_set (g : List (Option MatrixDrop)) (c : ℕ) (d : MatrixDrop)
    (hg : GridOk g) (hd : d.x = c) : GridOk (g.set c (some d)) := by
  intro j d2 hj
  rw [List.getElem?_set] at hj
  by_cases hcj : c = j
  · rw [if_pos hcj] at hj
    split at hj
    · simp only [Option.some.injEq] at hj
      subst hj
      omega
    · cases hj
  · rw [if_neg hcj] at hj
    exact hg j d2 hj

lemma seedCols_ok (rows : ℕ) (charset : List Char) (cfg : Config)
    (os : ℕ → DropOracle) :
    ∀ (cols : List ℕ) (g g2 : List (Option MatrixDrop)), GridOk g →
      seedCols rows charset cfg os cols g = some g2 →
      GridOk g2 ∧ g2.length = g.length := by
  intro cols
  induction cols with
  | nil =>
    intro g g2 hg h
    simp only [seedCols, Option.some.injEq] at h
    subst h
    exact ⟨hg, rfl⟩
  | cons c rest ih =>
    intro g g2 hg h
    unfold seedCols at h
    cases hn : MatrixDrop.new c rows charset cfg (os c) with
    | none => rw [hn] at h; cases h
    | some d =>
      rw [hn] at h
      have hset := gridOk_set g c d hg (new_x c rows charset cfg (os c) d hn)
      obtain ⟨hok, hlen⟩ := ih (g.set c (some d)) g2 hset h
      exact ⟨hok, by rw [hlen, List.length_set]⟩

lemma update_keeps_x (d d2 : MatrixDrop) (rows : ℕ) (dt fps : ℚ)
    (jh : Bool) (jd : ℚ) (cr : ℕ → ℚ) (gh : ℕ → Bool) (gd cd : ℕ → ℕ)
    (e : Bool)
    (h : d.update rows dt fps jh jd cr gh gd cd = some (d2, e)) :
    d2.x = d.x := by
  cases jh <;>
    simp only [MatrixDrop.update, Bool.false_eq_true, if_false, if_true] at h <;>
    split at h
  · simp only [Option.some.injEq, Prod.mk.injEq] at h
    rw [← h.1]
  · split at h
    · cases h
    · simp only [Option.some.injEq, Prod.mk.injEq] at h
      rw [← h.1]
  · simp only [Option.some.injEq, Prod.mk.injEq] at h
    rw [← h.1]
  · split at h
    · cases h
    · simp only [Option.some.injEq, Prod.mk.injEq] at h
      rw [← h.1]

lemma updateColumn_keeps_x (rows : ℕ) (charset : List Char) (cfg : Config)
    (es urf : Bool) (scheme : MatrixColorScheme) (powf : ℚ → ℚ → ℚ)
    (now : ℚ) (fo : FrameOracle) (slot slot2 : Option MatrixDrop)
    (sticky sticky2 : StickyMap)
    (h : updateColumn rows charset cfg es urf scheme powf now fo slot
      sticky = some (slot2, sticky2)) :
    ∀ d2, slot2 = some d2 → ∃ d, slot = some d ∧ d2.x = d.x := by
  cases slot with
  | none =>
    simp only [updateColumn, Option.some.injEq, Prod.mk.injEq] at h
    intro d2 hd2
    rw [← h.1] at hd2
    cases hd2
  | some d =>
    intro d2 hd2
    refine ⟨d, rfl, ?_⟩
    simp only [updateColumn] at h
    cases hu : d.update rows fo.dt cfg.framerate fo.jitterHit fo.jitterDelta
        fo.changeRoll fo.glitchHit fo.glitchDraw fo.charDraw with
    | none => rw [hu] at h; cases h
    | some p =>
      obtain ⟨d1, sr⟩ := p
      have hx1 : d1.x = d.x := update_keeps_x d d1 rows fo.dt cfg.framerate
        fo.jitterHit fo.jitterDelta fo.changeRoll fo.glitchHit fo.glitchDraw
        fo.charDraw sr hu
      rw [hu] at h
      dsimp only at h
      cases hs : stickyAfterReset rows cfg es now fo d1 sr sticky with
      | none => rw [hs] at h; cases h
      | some sticky1 =>
        rw [hs] at h
        dsimp only at h
        cases sr with
        | true =>
          rw [if_pos rfl] at h
          cases hnew : MatrixDrop.new d1.x rows charset cfg fo.newDrop with
          | none => rw [hnew] at h; cases h
          | some dnew =>
            rw [hnew] at h
            simp only [Option.some.injEq, Prod.mk.injEq] at h
            rw [← h.1] at hd2
            simp only [Option.some.injEq] at hd2
            rw [← hd2]
            rw [new_x d1.x rows charset cfg fo.newDrop dnew hnew, hx1]
        | false =>
          rw [if_neg (by simp)] at h
          simp only [Option.some.injEq, Prod.mk.injEq] at h
          rw [← h.1] at hd2
          simp only [Option.some.injEq] at hd2
          rw [← hd2, hx1]

lemma updateLoop_ok (rows : ℕ) (charset : List Char) (cfg : Config)
    (es urf : Bool) (scheme : MatrixColorScheme) (powf : ℚ → ℚ → ℚ)
    (now : ℚ) (fos : ℕ → FrameOracle) :
    ∀ (g : List (Option MatrixDrop)) (x0 : ℕ) (sticky : StickyMap) g2 st2,
      GridOkFrom x0 g →
      updateLoop rows charset cfg es urf scheme powf now fos x0 g sticky =
        some (g2, st2) → GridOkFrom x0 g2 := by
  intro g
  induction g with
  | nil =>
    intro x0 sticky g2 st2 _ h
    simp only [updateLoop, Option.some.injEq, Prod.mk.injEq] at h
    rw [← h.1]
    exact gridOkFrom_nil x0
  | cons slot rest ih =>
    intro x0 sticky g2 st2 hg h
    unfold updateLoop at h
    cases hc : updateColumn rows charset cfg es urf scheme powf now (fos x0)
        slot sticky with
    | none => rw [hc] at h; cases h
    | some p =>
      obtain ⟨slot2, sticky2⟩ := p
      rw [hc] at h
      dsimp only at h
      cases hrest : updateLoop rows charset cfg es urf scheme powf now fos
          (x0 + 1) rest sticky2 with
      | none => rw [hrest] at h; cases h
      | some q =>
        obtain ⟨rest2, st3⟩ := q
        rw [hrest] at h
        simp only [Option.some.injEq, Prod.mk.injEq] at h
        rw [← h.1]
        refine (gridOkFrom_cons x0 slot2 rest2).mpr ⟨?_, ?_⟩
        · intro d2 hd2
          obtain ⟨d, hslot, hx⟩ := updateColumn_keeps_x rows charset cfg es
            urf scheme powf now (fos x0) slot slot2 sticky sticky2 hc d2 hd2
          have := (gridOkFrom_cons x0 slot rest).mp hg |>.1 d hslot
          omega
        · exact ih (x0 + 1) sticky2 rest2 st3
            ((gridOkFrom_cons x0 slot rest).mp hg).2 hrest

lemma resizeCols_ok (rows : ℕ) (charset : List Char) (cfg : Config)
    (rolls : ℕ → ℚ) (os : ℕ → DropOracle) :
    ∀ (n x0 : ℕ) g, resizeCols rows charset cfg rolls os x0 n = some g →
      GridOkFrom x0 g := by
  intro n
  induction n with
  | zero =>
    intro x0 g h
    simp only [resizeCols, Option.some.injEq] at h
    rw [← h]
    exact gridOkFrom_nil x0
  | succ m ih =>
    intro x0 g h
    unfold resizeCols at h
    by_cases hr : rolls x0 < (3 / 10 : ℚ)
    · rw [if_pos hr] at h
      cases hn : MatrixDrop.new x0 rows charset cfg (os x0) with
      | none => rw [hn] at h; cases h
      | some d =>
        rw [hn] at h
        simp only [Option.map_some'] at h
        cases hrest : resizeCols rows charset cfg rolls os (x0 + 1) m with
        | none => rw [hrest] at h; cases h
        | some rest =>
          rw [hrest] at h
          simp only [Option.some.injEq] at h
          rw [← h]
          refine (gridOkFrom_cons x0 (some d) rest).mpr ⟨?_, ih (x0 + 1) rest hrest⟩
          intro d2 hd2
          simp only [Option.some.injEq] at hd2
          rw [← hd2]
          exact new_x x0 rows charset cfg (os x0) d hn
    · rw [if_neg hr] at h
      cases hrest : resizeCols rows charset cfg rolls os (x0 + 1) m with
      | none => rw [hrest] at h; cases h
      | some rest =>
        rw [hrest] at h
        simp only [Option.some.injEq] at h
        rw [← h]
        refine (gridOkFrom_cons x0 none rest).mpr ⟨?_, ih (x0 + 1) rest hrest⟩
        intro d2 hd2
        cases hd2

lemma spawnCols_ok (rows : ℕ) (charset : List Char) (cfg : Config)
    (rolls : ℕ → ℚ) (os : ℕ → DropOracle) :
    ∀ (g : List (Option MatrixDrop)) (x0 : ℕ) g2, GridOkFrom x0 g →
      spawnCols rows charset cfg rolls os x0 g = some g2 →
      GridOkFrom x0 g2 := by
  intro g
  induction g with
  | nil =>
    intro x0 g2 _ h
    simp only [spawnCols, Option.some.injEq] at h
    rw [← h]
    exact gridOkFrom_nil x0
  | cons slot rest ih =>
    intro x0 g2 hg h
    obtain ⟨hhead, htail⟩ := (gridOkFrom_cons x0 slot rest).mp hg
    cases slot with
    | none =>
      unfold spawnCols at h
      by_cases hr : rolls x0 < cfg.new_drop_probability
      · rw [if_pos hr] at h
        cases hn : MatrixDrop.new x0 rows charset cfg (os x0) with
        | none => rw [hn] at h; cases h
        | some d =>
          rw [hn] at h
          cases hrest : spawnCols rows charset cfg rolls os (x0 + 1) rest with
          | none => rw [hrest] at h; cases h
          | some rest2 =>
            rw [hrest] at h
            simp only [Option.some.injEq] at h
            rw [← h]
            refine (gridOkFrom_cons x0 (some d) rest2).mpr
              ⟨?_, ih (x0 + 1) rest2 htail hrest⟩
            intro d2 hd2
            simp only [Option.some.injEq] at hd2
            rw [← hd2]
            exact new_x x0 rows charset cfg (os x0) d hn
      · rw [if_neg hr] at h
        cases hrest : spawnCols rows charset cfg rolls os (x0 + 1) rest with
        | none => rw [hrest] at h; cases h
        | some rest2 =>
          rw [hrest] at h
          simp only [Option.some.injEq] at h
          rw [← h]
          refine (gridOkFrom_cons x0 none rest2).mpr
            ⟨?_, ih (x0 + 1) rest2 htail hrest⟩
          intro d2 hd2
          cases hd2
    | some d =>
      unfold spawnCols at h
      cases hrest : spawnCols rows charset cfg rolls os (x0 + 1) rest with
      | none => rw [hrest] at h; cases h
      | some rest2 =>
        rw [hrest] at h
        simp only [Option.some.injEq] at h
        rw [← h]
        exact (gridOkFrom_cons x0 (some d) rest2).mpr
          ⟨hhead, ih (x0 + 1) rest2 htail hrest⟩

/-- C9: every grid operation of the engine keeps one drop per column —
slot `i` is empty or holds a drop whose column field is `i`.  Initial
seeding produces a grid of `cols` slots satisfying the invariant (and the
shuffle-then-take column selection never repeats a column); the resize
rebuild establishes it from scratch; periodic spawning and the per-frame
update/replace step (where a replacement drop reuses the expired drop's
column) preserve it. -/
theorem grid_one_drop_per_column :
    (∀ cols rows k charset cfg shuffled os g,
      seedGrid cols rows k charset cfg shuffled os = some g →
      GridOk g ∧ g.length = cols)
    ∧ (∀ (shuffled : List ℕ) (cols k : ℕ),
      shuffled.Perm (List.range cols) → (shuffled.take k).Nodup)
    ∧ (∀ rows charset cfg rolls os n g,
      resizeCols rows charset cfg rolls os 0 n = some g → GridOk g)
    ∧ (∀ rows charset cfg rolls os g g2, GridOk g →
      spawnCols rows charset cfg rolls os 0 g = some g2 → GridOk g2)
    ∧ (∀ rows charset cfg es urf scheme powf now fos g sticky g2 st2,
      GridOk g →
      updateLoop rows charset cfg es urf scheme powf now fos 0 g sticky =
        some (g2, st2) → GridOk g2) := by
  refine ⟨?_, ?_, ?_, ?_, ?_⟩
  · intro cols rows k charset cfg shuffled os g h
    unfold seedGrid at h
    obtain ⟨hok, hlen⟩ := seedCols_ok rows charset cfg os
      (shuffled.take (min k cols)) (List.replicate cols none) g
      (gridOk_replicate cols) h
    exact ⟨hok, by rw [hlen, List.length_replicate]⟩
  · intro shuffled cols k hperm
    have hsh : shuffled.Nodup := hperm.symm.nodup (List.nodup_range cols)
    exact List.Nodup.sublist (List.take_sublist k shuffled) hsh
  · intro rows charset cfg rolls os n g h
    exact resizeCols_ok rows charset cfg rolls os n 0 g h
  · intro rows charset cfg rolls os g g2 hg h
    exact spawnCols_ok rows charset cfg rolls os g 0 g2 hg h
  · intro rows charset cfg es urf scheme powf now fos g sticky g2 st2 hg h
    exact updateLoop_ok rows charset cfg es urf scheme powf now fos g 0
      sticky g2 st2 hg h

/-- Witness for C9: seeding a two-column grid with no initial drops
yields two empty slots, which satisfy the invariant. -/
theorem grid_one_drop_per_column_wit :
    GridOk [none, none] ∧
      ([none, none] : List (Option MatrixDrop)).length = 2 :=
  grid_one_drop_per_column.1 2 7 0 ['A'] defaultConfig []
    (fun _ => ⟨0, 0, fun _ => 0⟩) [none, none] rfl

end MakeItRain
